import Mathlib

/-!
# Verification of the SmartInventory POS backend

A shallow embedding of the order-processing, inventory, search and analytics
core of `backend.py` (classes `SearchAlgorithms`, `Admin`, `POSOperator`,
`AnalyticsEngine`), with theorems settling the specification's claims.

Modelling conventions:
* SQLite rows become Lean structures; a table is a `List` of rows kept in
  insertion order, and SQL `UPDATE ... WHERE` becomes `List.map` with a
  conditional update (an update touching no row maps every row to itself).
* Python `float` money amounts are modelled as exact rationals `ℚ`;
  SQLite `INTEGER` columns as `ℤ` (they can go negative in the code);
  `TIMESTAMP` values as `Nat` stamps ordered like the dates they stand for.
* Python dicts (the cart) become association lists with distinct keys,
  iterated in insertion order, matching dict iteration order.
* `while` loops become fueled recursions; each call site passes fuel
  strictly larger than the possible number of iterations, so the fueled
  function computes exactly what the loop computes, and stays
  kernel-reducible for concrete evaluation.
-/

namespace SmartInventory

/-! ## Search module (`SearchAlgorithms`, backend.py lines 299-335) -/

/-- Python `str.lower()` applied to a string, as its character list.
The store's data is ASCII, where `Char.toLower` agrees with Python. -/
def lowerStr (s : String) : List Char := s.data.map Char.toLower

/-- `str(item[key]).lower().startswith(str(value).lower())` — the prefix-match
test both search strategies apply (backend.py lines 304, 319, 328, 332). -/
def matchesQuery (key : α → String) (value : String) (item : α) : Bool :=
  (lowerStr value).isPrefixOf (lowerStr (key item))

/-- Python's `<` on strings: strict lexicographic comparison of code points,
on character lists. -/
def charListLt : List Char → List Char → Bool
  | [], [] => false
  | [], _ :: _ => true
  | _ :: _, [] => false
  | a :: as, b :: bs => if a < b then true else if b < a then false else charListLt as bs

/-- `SearchAlgorithms.linear_search`: one pass, keeping every item whose key
field starts (case-insensitively) with the query, in input order. -/
def linear_search (data_list : List α) (key : α → String) (value : String) : List α :=
  data_list.filter (matchesQuery key value)

/-- The comparison `sorted(data_list, key=lambda x: str(x[key]))` sorts by:
`a` before `b` iff not `key b < key a` (raw, case-sensitive, code-point order).
Python's sort is stable; a stable insertion sort with the same total preorder
computes the same list. -/
def keyLe (key : α → String) (a b : α) : Prop :=
  charListLt (key b).data (key a).data = false

instance (key : α → String) : DecidableRel (keyLe key) :=
  fun a b => instDecidableEqBool (charListLt (key b).data (key a).data) false

/-- The bisection `while low <= high` loop of `binary_search` (backend.py
lines 315-325): returns the index where `break` fired (`idx = mid`), or `-1`.
`(low + high) / 2` on `ℤ` rounds like Python's `//` (floor) since the operands
stay non-negative here. The `none` arm of the index lookup cannot fire for the
in-range arguments `binary_search` passes (Python would raise there). -/
def bisect (sorted_data : List α) (key : α → String) (value : String) :
    Nat → ℤ → ℤ → ℤ
  | 0, _, _ => -1
  | fuel + 1, low, high =>
    if low ≤ high then
      match sorted_data.get? ((low + high) / 2).toNat with
      | none => -1
      | some x =>
        if (lowerStr value).isPrefixOf (lowerStr (key x)) then (low + high) / 2
        else if charListLt (lowerStr (key x)) (lowerStr value) then
          bisect sorted_data key value fuel ((low + high) / 2 + 1) high
        else
          bisect sorted_data key value fuel low ((low + high) / 2 - 1)
    else -1

/-- The first expansion loop of `binary_search` (backend.py lines 327-330):
walk left from `idx` while the prefix still matches, appending each record not
already collected. -/
def expandLeft [DecidableEq α] (sorted_data : List α) (key : α → String)
    (value : String) : Nat → ℤ → List α → List α
  | 0, _, results => results
  | fuel + 1, i, results =>
    if 0 ≤ i then
      match sorted_data.get? i.toNat with
      | none => results
      | some x =>
        if matchesQuery key value x then
          expandLeft sorted_data key value fuel (i - 1)
            (if x ∈ results then results else results ++ [x])
        else results
    else results

/-- The second expansion loop of `binary_search` (backend.py lines 331-334):
walk right from `idx + 1` while the prefix still matches (`i` never goes
negative at the call site, so the range test is the lookup's success). -/
def expandRight [DecidableEq α] (sorted_data : List α) (key : α → String)
    (value : String) : Nat → ℤ → List α → List α
  | 0, _, results => results
  | fuel + 1, i, results =>
    match sorted_data.get? i.toNat with
    | none => results
    | some x =>
      if matchesQuery key value x then
        expandRight sorted_data key value fuel (i + 1)
          (if x ∈ results then results else results ++ [x])
      else results

/-- `SearchAlgorithms.binary_search`: sort by the raw key string, bisect for
one matching index comparing lowercased strings, then expand left and right
from it, deduplicating. Fuel `length + 1` strictly exceeds the iteration count
of each loop (the bisection interval shrinks every pass; each expansion moves
one index per pass). -/
def binary_search [DecidableEq α] (data_list : List α) (key : α → String)
    (value : String) : List α :=
  let sorted_data := List.insertionSort (keyLe key) data_list
  let idx := bisect sorted_data key value (sorted_data.length + 1) 0
    ((sorted_data.length : ℤ) - 1)
  if idx = -1 then []
  else
    expandRight sorted_data key value (sorted_data.length + 1) (idx + 1)
      (expandLeft sorted_data key value (sorted_data.length + 1) idx [])

/-! ## Data model (the SQLite tables of `DatabaseManager.create_tables`) -/

/-- A row of the `products` table. -/
structure Product where
  id : Nat
  name : String
  selling_price : ℚ
  cost_price : ℚ
  stock : ℤ
  sales_count : ℤ
deriving Repr, DecidableEq

/-- A row of the `customers` table (keyed by `mobile`). -/
structure Customer where
  mobile : String
  name : String
  total_spent : ℚ
  total_visits : ℤ
  cancelled_orders : ℤ
deriving Repr, DecidableEq

/-- A row of the `orders` table (keyed by `order_id`); `timestamp` is an
abstract day stamp ordered like the dates it stands for. -/
structure Order where
  order_id : String
  customer_mobile : String
  operator_username : String
  total_amount : ℚ
  gst_amount : ℚ
  payment_mode : String
  timestamp : Nat
  status : String
  cancellation_reason : Option String
deriving Repr, DecidableEq

/-- A row of the `order_items` table. -/
structure OrderItem where
  order_id : String
  product_id : Nat
  quantity : ℤ
  price : ℚ
  cost : ℚ
deriving Repr, DecidableEq

/-- A row of the `users` table; `password_hash` stands for the stored
SHA-256 digest (hashing itself is outside the modelled core, so credentials
circulate as their digests). -/
structure UserRow where
  id : Nat
  username : String
  password_hash : String
  role : String
deriving Repr, DecidableEq

/-- The persistent store the operations read and write. -/
structure DBState where
  products : List Product
  customers : List Customer
  orders : List Order
  order_items : List OrderItem
  users : List UserRow
deriving Repr, DecidableEq

/-! ## User operations (backend.py lines 382-512) -/

/-- `User.verify_password` (backend.py lines 382-387): the acting user's id
paired with the supplied credential's digest must match a `users` row. -/
def verify_password (s : DBState) (user_id : Nat) (pw_hash : String) : Bool :=
  s.users.any (fun u => u.id == user_id && u.password_hash == pw_hash)

/-- `Admin.restock_product` (backend.py lines 445-455): reject `qty <= 0`
before touching the store, otherwise add `qty` to the stock of every
`products` row whose `id` matches (none may match) and report success. -/
def restock_product (s : DBState) (product_id : Nat) (qty : ℤ) : DBState × Bool :=
  if qty ≤ 0 then (s, false)
  else
    ({ s with
        products := s.products.map (fun p =>
          if p.id == product_id then { p with stock := p.stock + qty } else p) },
      true)

/-- The `UPDATE orders SET status='cancelled', cancellation_reason=? WHERE
order_id=?` statement of `Admin.cancel_order`. -/
def cancelUpdate (order_id reason : String) (orders : List Order) : List Order :=
  orders.map (fun o2 =>
    if o2.order_id == order_id then
      { o2 with status := "cancelled", cancellation_reason := some reason }
    else o2)

/-- The `UPDATE customers SET total_spent = total_spent - ?, total_visits =
total_visits - 1, cancelled_orders = cancelled_orders + 1 WHERE mobile=?`
statement of `Admin.cancel_order`. -/
def reverseCustomer (mobile : String) (amount : ℚ) (customers : List Customer) :
    List Customer :=
  customers.map (fun c =>
    if c.mobile == mobile then
      { c with
          total_spent := c.total_spent - amount,
          total_visits := c.total_visits - 1,
          cancelled_orders := c.cancelled_orders + 1 }
    else c)

/-- `Admin.cancel_order` (backend.py lines 457-483): re-authenticate, fetch
the order's status (`fetchone` = first matching row), refuse a missing or
already-cancelled order, otherwise mark it cancelled with the reason, re-read
its `customer_mobile`/`total_amount` from the updated table and reverse that
customer's counters (the Python skips the customer update when that re-read
returns nothing, which cannot happen after the update). -/
def cancel_order (s : DBState) (admin_id : Nat) (order_id reason pw_check : String) :
    DBState × Bool × String :=
  if verify_password s admin_id pw_check = false then
    (s, false, "Invalid Password")
  else
    match s.orders.find? (fun o => o.order_id == order_id) with
    | none => (s, false, "Order already cancelled or not found")
    | some o =>
      if o.status == "cancelled" then
        (s, false, "Order already cancelled or not found")
      else
        match (cancelUpdate order_id reason s.orders).find?
            (fun o2 => o2.order_id == order_id) with
        | none =>
          ({ s with orders := cancelUpdate order_id reason s.orders },
            true, "Order Cancelled Successfully")
        | some od =>
          ({ s with
              orders := cancelUpdate order_id reason s.orders,
              customers := reverseCustomer od.customer_mobile od.total_amount s.customers },
            true, "Order Cancelled Successfully")

/-- One line of the cart dict: `{'qty': ..., 'selling_price': ..., 'cost_price': ...}`
(the other keys of the product row the UI copies in are unused by
`process_order`). -/
structure CartItem where
  qty : ℤ
  selling_price : ℚ
  cost_price : ℚ
deriving Repr, DecidableEq

/-- `total_selling = sum(item['selling_price'] * item['qty'] for item in
cart.values())` (backend.py line 491). -/
def cartSubtotal (cart : List (Nat × CartItem)) : ℚ :=
  (cart.map (fun line => line.2.selling_price * (line.2.qty : ℚ))).sum

/-- The `UPDATE products SET stock = stock - ?, sales_count = sales_count + ?
WHERE id=?` statement `process_order` issues for one cart line, applied to one
row. -/
def applyLine (line : Nat × CartItem) (p : Product) : Product :=
  if p.id == line.1 then
    { p with stock := p.stock - line.2.qty, sales_count := p.sales_count + line.2.qty }
  else p

/-- `POSOperator.process_order` (backend.py lines 489-512). The cart is the
dict `{pid: item}` as an association list in insertion order; `order_id` is
the timestamp-derived token and `now` the order's timestamp, both supplied by
the environment. No validation of any kind precedes the writes: the order
header row, one item row per cart line, the per-product stock/sales updates
and the customer update are applied unconditionally. -/
def process_order (s : DBState) (operator_username customer_mobile : String)
    (cart : List (Nat × CartItem)) (payment_mode : String)
    (gst_enabled : Bool) (gst_percent : ℚ) (order_id : String) (now : Nat) :
    DBState × String × ℚ × ℚ :=
  let total_selling := cartSubtotal cart
  let gst_amt := if gst_enabled then total_selling * (gst_percent / 100) else 0
  let final_amt := total_selling + gst_amt
  ({ s with
      orders := s.orders ++
        [⟨order_id, customer_mobile, operator_username, final_amt, gst_amt,
          payment_mode, now, "active", none⟩],
      order_items := s.order_items ++ cart.map (fun line =>
        ⟨order_id, line.1, line.2.qty, line.2.selling_price, line.2.cost_price⟩),
      products := cart.foldl (fun ps line => ps.map (applyLine line)) s.products,
      customers := s.customers.map (fun c =>
        if c.mobile == customer_mobile then
          { c with total_spent := c.total_spent + final_amt,
                   total_visits := c.total_visits + 1 }
        else c) },
    order_id, final_amt, gst_amt)

/-! ## Analytics engine (backend.py lines 517-631) -/

/-- The dictionary `AnalyticsEngine.get_financials_extended` returns. -/
structure Financials where
  revenue : ℚ
  total_orders : Nat
  aov : ℚ
  total_cost : ℚ
  gross_profit : ℚ
  gross_margin : ℚ
  inventory_turnover : ℤ
  retention_rate : ℚ
deriving Repr, DecidableEq

/-- The `status='active' AND date(timestamp) BETWEEN start AND end` filter
every aggregate of `get_financials_extended` applies. -/
def activeInRange (start_date end_date : Nat) (o : Order) : Bool :=
  o.status == "active" && decide (start_date ≤ o.timestamp) && decide (o.timestamp ≤ end_date)

/-- `AnalyticsEngine.get_financials_extended` (backend.py lines 531-565):
revenue, order count, average order value, joined item cost, gross
profit/margin over active in-range orders; global inventory turnover and
customer retention. `SUM(...) or 0` over no rows is the empty sum, `0`. -/
def get_financials_extended (s : DBState) (start_date end_date : Nat) : Financials :=
  let revenue := ((s.orders.filter (activeInRange start_date end_date)).map
    (fun o => o.total_amount)).sum
  let total_orders := (s.orders.filter (activeInRange start_date end_date)).length
  let aov := if total_orders > 0 then revenue / total_orders else 0
  let total_cost := (s.order_items.map (fun oi =>
    ((s.orders.filter (fun o =>
        o.order_id == oi.order_id && activeInRange start_date end_date o)).map
      (fun _ => oi.cost * (oi.quantity : ℚ))).sum)).sum
  let gross_profit := revenue - total_cost
  let gross_margin := if revenue > 0 then gross_profit / revenue * 100 else 0
  let inventory_turnover := (s.products.map (fun p => p.sales_count)).sum
  let total_customers := s.customers.length
  let returning_cust := (s.customers.filter (fun c => decide (1 < c.total_visits))).length
  let retention_rate :=
    if total_customers > 0 then (returning_cust : ℚ) / total_customers * 100 else 0
  ⟨revenue, total_orders, aov, total_cost, gross_profit, gross_margin,
    inventory_turnover, retention_rate⟩

/-- `AnalyticsEngine.predict_sales` (backend.py lines 616-631), `mode='Linear'`
branch (the claims touch only this branch; the insufficient-data test on line
617 precedes the mode dispatch). The input is the chronological revenue
column; `X` is the sequential day index `0..n-1`. `np.polyfit(X, y, 1)` is the
exact degree-1 least-squares fit, written by its closed-form normal-equation
solution over `ℚ`; the fitted curve is the polynomial at the observed indices
and the forecast its value at the next 7 indices. -/
def predict_sales (sales : List ℚ) : Option (List ℚ × List ℚ) :=
  if sales.length < 2 then none
  else
    let n := sales.length
    let sx : ℚ := ((List.range n).map (fun (i : ℕ) => (i : ℚ))).sum
    let sy : ℚ := sales.sum
    let sxx : ℚ := ((List.range n).map (fun (i : ℕ) => (i : ℚ) ^ 2)).sum
    let sxy : ℚ := ((List.range n).map (fun (i : ℕ) => (i : ℚ) * sales.getD i 0)).sum
    let slope : ℚ := ((n : ℚ) * sxy - sx * sy) / ((n : ℚ) * sxx - sx ^ 2)
    let intercept : ℚ := (sy - slope * sx) / (n : ℚ)
    some ((List.range n).map (fun (i : ℕ) => intercept + slope * (i : ℚ)),
      (List.range 7).map (fun (k : ℕ) => intercept + slope * ((n : ℚ) + (k : ℚ))))

/-- A record with a single `name` field, for concrete search evaluations. -/
structure NameRec where
  name : String
deriving Repr, DecidableEq

/-! ## Concrete store states for evaluations -/

/-- The specification's §8 scenario: products P1 (stock 10, price 50) and
P2 (stock 5, price 30), one known customer, one admin user. -/
def stateA : DBState :=
  { products := [⟨1, "P1", 50, 40, 10, 0⟩, ⟨2, "P2", 30, 20, 5, 0⟩],
    customers := [⟨"9876543210", "Customer 1", 0, 0, 0⟩],
    orders := [],
    order_items := [],
    users := [⟨1, "admin", "hash1", "admin"⟩] }

/-- A store holding one active order ORD1 (total 100, tax 0, day 5, owned by
the one customer) and one already-cancelled order ORD2 (day 6), for the
cancellation and analytics evaluations. -/
def stateB : DBState :=
  { products := [⟨1, "P1", 50, 40, 8, 2⟩, ⟨2, "P2", 30, 20, 4, 1⟩],
    customers := [⟨"9876543210", "Customer 1", 100, 1, 0⟩],
    orders :=
      [⟨"ORD1", "9876543210", "pos1", 100, 0, "CASH", 5, "active", none⟩,
       ⟨"ORD2", "9876543210", "pos1", 40, 0, "UPI", 6, "cancelled", some "changed mind"⟩],
    order_items := [⟨"ORD1", 1, 2, 50, 40⟩, ⟨"ORD2", 2, 1, 30, 20⟩],
    users := [⟨1, "admin", "hash1", "admin"⟩] }

/-- C5: the two strategies do NOT return the same set of matches on every
input. `binary_search` sorts by the raw (case-sensitive) key but compares
lowercased strings, so on mixed-case data the lowercased list is not sorted:
on `["B", "a"]` with query `"a"` the bisection concludes the match must lie
left of `"B"` and finds nothing, while `linear_search` returns the record
`"a"`; on `["Co", "Xa", "co"]` with query `"co"` the matches are not
contiguous in the raw sort order, so the expansion stops at `"Xa"` and
`binary_search` misses `"co"`. -/
theorem binary_search_misses_matches :
    linear_search [NameRec.mk "B", NameRec.mk "a"] NameRec.name "a"
        = [NameRec.mk "a"] ∧
    binary_search [NameRec.mk "B", NameRec.mk "a"] NameRec.name "a" = [] ∧
    linear_search [NameRec.mk "Co", NameRec.mk "Xa", NameRec.mk "co"] NameRec.name "co"
        = [NameRec.mk "Co", NameRec.mk "co"] ∧
    binary_search [NameRec.mk "Co", NameRec.mk "Xa", NameRec.mk "co"] NameRec.name "co"
        = [NameRec.mk "Co"] := by
  refine ⟨by decide, by decide, by decide, by decide⟩

/-! ## General lemmas about the list embedding of tables -/

/-- An `UPDATE` whose row transformer fixes every row of the table leaves the
table unchanged. -/
theorem map_eq_self_of_forall {α : Type} (f : α → α) :
    ∀ l : List α, (∀ a ∈ l, f a = a) → l.map f = l := by
  intro l
  induction l with
  | nil => intro _; rfl
  | cons a t ih =>
    intro h
    simp only [List.map_cons, h a (List.mem_cons_self a t),
      ih (fun x hx => h x (List.mem_cons_of_mem a hx))]

/-- A left fold of per-table `UPDATE`s is the per-row fold of the updates. -/
theorem foldl_map {α β : Type} (f : β → α → α) :
    ∀ (bs : List β) (l : List α),
    bs.foldl (fun acc b => acc.map (f b)) l
      = l.map (fun a => bs.foldl (fun x b => f b x) a) := by
  intro bs
  induction bs with
  | nil => intro l; simp
  | cons b t ih =>
    intro l
    simp only [List.foldl_cons]
    rw [ih, List.map_map]
    rfl

/-- A product whose id appears on no cart line is fixed by every line's
update. -/
theorem foldl_applyLine_of_no_key (p : Product) :
    ∀ cart : List (Nat × CartItem), (∀ line ∈ cart, p.id ≠ line.1) →
    cart.foldl (fun x line => applyLine line x) p = p := by
  intro cart
  induction cart with
  | nil => intro _; rfl
  | cons line t ih =>
    intro h
    have hne : p.id ≠ line.1 := h line (List.mem_cons_self line t)
    have hstep : applyLine line p = p := by
      simp [applyLine, hne]
    rw [List.foldl_cons, hstep]
    exact ih (fun l hl => h l (List.mem_cons_of_mem line hl))

/-- Folding every cart line's update over one product row applies exactly the
update of the (at most one, by key distinctness) line carrying its id. -/
theorem foldl_applyLine_lookup (p : Product) :
    ∀ cart : List (Nat × CartItem), (cart.map Prod.fst).Nodup →
    cart.foldl (fun x line => applyLine line x) p
      = (match cart.lookup p.id with
         | some it =>
            { p with stock := p.stock - it.qty, sales_count := p.sales_count + it.qty }
         | none => p) := by
  intro cart
  induction cart with
  | nil => intro _; rfl
  | cons line t ih =>
    obtain ⟨k, it⟩ := line
    intro hk
    simp only [List.map_cons, List.nodup_cons] at hk
    by_cases h : p.id = k
    · have hbeq : (p.id == k) = true := by simpa using h
      have hupd : applyLine (k, it) p
          = { p with stock := p.stock - it.qty, sales_count := p.sales_count + it.qty } := by
        simp [applyLine, hbeq]
      have hid : ∀ l ∈ t, p.id ≠ l.1 := by
        intro l hl hcontra
        have hmem : l.1 ∈ t.map Prod.fst := List.mem_map_of_mem Prod.fst hl
        rw [← hcontra, h] at hmem
        exact hk.1 hmem
      have hfix : t.foldl (fun x l => applyLine l x)
          { p with stock := p.stock - it.qty, sales_count := p.sales_count + it.qty }
          = { p with stock := p.stock - it.qty, sales_count := p.sales_count + it.qty } :=
        foldl_applyLine_of_no_key _ t hid
      rw [List.foldl_cons, hupd, hfix]
      simp [List.lookup, hbeq]
    · have hbeq : (p.id == k) = false := by simpa using h
      have hstep : applyLine (k, it) p = p := by
        simp [applyLine, hbeq]
      rw [List.foldl_cons, hstep, ih hk.2]
      simp [List.lookup, hbeq]

/-- With pairwise-distinct keys, `lookup` finds the pair's value. -/
theorem lookup_eq_some_of_nodup_keys {β : Type} (k : Nat) (v : β) :
    ∀ l : List (Nat × β), (l.map Prod.fst).Nodup → (k, v) ∈ l →
    l.lookup k = some v := by
  intro l
  induction l with
  | nil => intro _ h; cases h
  | cons e t ih =>
    obtain ⟨k2, v2⟩ := e
    intro hk hm
    simp only [List.map_cons, List.nodup_cons] at hk
    rcases List.mem_cons.mp hm with h | h
    · cases h
      simp [List.lookup]
    · have hne : k ≠ k2 := by
        intro hcontra
        apply hk.1
        have : k ∈ t.map Prod.fst := by
          simpa using List.mem_map_of_mem Prod.fst h
        rwa [hcontra] at this
      have hbeq : (k == k2) = false := by simpa using hne
      simp [List.lookup, hbeq, ih hk.2 h]

/-- With pairwise-distinct order ids, `find?` returns the member carrying the
id (`fetchone` on the primary key). -/
theorem find?_order_eq_some (order_id : String) (o : Order) :
    ∀ l : List Order, (l.map Order.order_id).Nodup → o ∈ l → o.order_id = order_id →
    l.find? (fun o2 => o2.order_id == order_id) = some o := by
  intro l
  induction l with
  | nil => intro _ h; cases h
  | cons a t ih =>
    intro hk hm hid
    simp only [List.map_cons, List.nodup_cons] at hk
    rcases List.mem_cons.mp hm with h | h
    · cases h
      exact List.find?_cons_of_pos _ (by simpa using hid)
    · have hne : (a.order_id == order_id) = false := by
        simp only [beq_eq_false_iff_ne, ne_eq]
        intro hcontra
        apply hk.1
        have hmm : o.order_id ∈ t.map Order.order_id :=
          List.mem_map_of_mem Order.order_id h
        rw [hid, ← hcontra] at hmm
        exact hmm
      rw [List.find?_cons_of_neg _ (by simp [hne]), ih hk.2 h hid]

/-- The cancellation `UPDATE` touches no order id. -/
theorem cancelUpdate_ids (order_id reason : String) (l : List Order) :
    (cancelUpdate order_id reason l).map Order.order_id = l.map Order.order_id := by
  unfold cancelUpdate
  rw [List.map_map]
  apply List.map_congr_left
  intro o _
  cases h : (o.order_id == order_id) <;> simp [Function.comp, h]

/-- The image of an order carrying the cancelled id under the cancellation
`UPDATE`. -/
theorem mem_cancelUpdate (order_id reason : String) (o : Order) (l : List Order)
    (hmem : o ∈ l) (hid : o.order_id = order_id) :
    ({ o with status := "cancelled", cancellation_reason := some reason } : Order)
      ∈ cancelUpdate order_id reason l := by
  have himg := List.mem_map_of_mem (fun o2 =>
    if o2.order_id == order_id then
      { o2 with status := "cancelled", cancellation_reason := some reason }
    else o2) hmem
  simpa [cancelUpdate, hid] using himg

/-- The successful path of `cancel_order` in closed form: with a valid
credential and an existing ACTIVE order, the result is exactly the state with
that order cancelled and its owner's counters reversed, plus a success flag. -/
theorem cancel_order_success_eq (s : DBState) (admin_id : Nat) (o : Order)
    (order_id reason pw_check : String)
    (hauth : verify_password s admin_id pw_check = true)
    (hmem : o ∈ s.orders) (hid : o.order_id = order_id) (hactive : o.status = "active")
    (hids : (s.orders.map Order.order_id).Nodup) :
    cancel_order s admin_id order_id reason pw_check
      = ({ s with
            orders := cancelUpdate order_id reason s.orders,
            customers := reverseCustomer o.customer_mobile o.total_amount s.customers },
          true, "Order Cancelled Successfully") := by
  have hfind1 : s.orders.find? (fun o2 => o2.order_id == order_id) = some o :=
    find?_order_eq_some order_id o s.orders hids hmem hid
  have hmem2 := mem_cancelUpdate order_id reason o s.orders hmem hid
  have hids2 : ((cancelUpdate order_id reason s.orders).map Order.order_id).Nodup := by
    rw [cancelUpdate_ids]
    exact hids
  have hfind2 : (cancelUpdate order_id reason s.orders).find?
      (fun o2 => o2.order_id == order_id)
      = some { o with status := "cancelled", cancellation_reason := some reason } :=
    find?_order_eq_some order_id _ _ hids2 hmem2 hid
  have hstatus : (o.status == "cancelled") = false := by simp [hactive]
  unfold cancel_order
  rw [hauth, hfind1]
  simp only [hstatus, hfind2, Bool.false_eq_true, if_false]
  simp

/-- C1: committing a valid cart (non-empty, every line on an existing product
with requested quantity within stock, known customer) returns
`total_amount = subtotal + tax` and `gst_amount = tax` with
`tax = subtotal*(percent/100)` when tax is enabled and `0` otherwise;
decrements each involved product's stock by exactly the ordered quantity while
incrementing its `sales_count` by the same amount (products off the cart are
untouched); and gives the customer exactly one more visit and `total_amount`
more spend. -/
theorem process_order_valid (s : DBState) (operator_username customer_mobile : String)
    (cart : List (Nat × CartItem)) (payment_mode : String)
    (gst_enabled : Bool) (gst_percent : ℚ) (order_id : String) (now : Nat)
    (hkeys : (cart.map Prod.fst).Nodup)
    (_hne : cart ≠ [])
    (_hlines : ∀ line ∈ cart, ∃ p ∈ s.products, p.id = line.1 ∧ line.2.qty ≤ p.stock)
    (_hcust : ∃ c ∈ s.customers, c.mobile = customer_mobile) :
    (process_order s operator_username customer_mobile cart payment_mode
        gst_enabled gst_percent order_id now).2.2.1
      = cartSubtotal cart
        + (if gst_enabled then cartSubtotal cart * (gst_percent / 100) else 0) ∧
    (process_order s operator_username customer_mobile cart payment_mode
        gst_enabled gst_percent order_id now).2.2.2
      = (if gst_enabled then cartSubtotal cart * (gst_percent / 100) else 0) ∧
    (process_order s operator_username customer_mobile cart payment_mode
        gst_enabled gst_percent order_id now).1.products
      = s.products.map (fun p =>
          match cart.lookup p.id with
          | some it =>
            { p with stock := p.stock - it.qty, sales_count := p.sales_count + it.qty }
          | none => p) ∧
    (∀ line ∈ cart, ∀ p ∈ s.products, p.id = line.1 →
      { p with stock := p.stock - line.2.qty, sales_count := p.sales_count + line.2.qty }
        ∈ (process_order s operator_username customer_mobile cart payment_mode
            gst_enabled gst_percent order_id now).1.products) ∧
    (∀ c ∈ s.customers, c.mobile = customer_mobile →
      { c with
          total_spent := c.total_spent
            + (cartSubtotal cart
               + (if gst_enabled then cartSubtotal cart * (gst_percent / 100) else 0)),
          total_visits := c.total_visits + 1 }
        ∈ (process_order s operator_username customer_mobile cart payment_mode
            gst_enabled gst_percent order_id now).1.customers) := by
  have hprod : (process_order s operator_username customer_mobile cart payment_mode
      gst_enabled gst_percent order_id now).1.products
      = s.products.map (fun p =>
          match cart.lookup p.id with
          | some it =>
            { p with stock := p.stock - it.qty, sales_count := p.sales_count + it.qty }
          | none => p) := by
    show cart.foldl (fun ps line => ps.map (applyLine line)) s.products = _
    rw [foldl_map]
    exact List.map_congr_left (fun p _ => foldl_applyLine_lookup p cart hkeys)
  refine ⟨rfl, rfl, hprod, ?_, ?_⟩
  · intro line hline p hp hid
    rw [hprod]
    have hlk : cart.lookup p.id = some line.2 := by
      apply lookup_eq_some_of_nodup_keys _ _ _ hkeys
      simpa [hid] using hline
    have := List.mem_map_of_mem (fun p =>
      match cart.lookup p.id with
      | some it =>
        { p with stock := p.stock - it.qty, sales_count := p.sales_count + it.qty }
      | none => p) hp
    simpa [hlk] using this
  · intro c hc hm
    have himg : (fun c0 =>
        if c0.mobile == customer_mobile then
          { c0 with
              total_spent := c0.total_spent
                + (cartSubtotal cart
                   + (if gst_enabled then cartSubtotal cart * (gst_percent / 100) else 0)),
              total_visits := c0.total_visits + 1 }
        else c0) c
        = { c with
            total_spent := c.total_spent
              + (cartSubtotal cart
                 + (if gst_enabled then cartSubtotal cart * (gst_percent / 100) else 0)),
            total_visits := c.total_visits + 1 } := by
      simp [hm]
    show _ ∈ s.customers.map (fun c0 =>
      if c0.mobile == customer_mobile then
        { c0 with
            total_spent := c0.total_spent
              + (cartSubtotal cart
                 + (if gst_enabled then cartSubtotal cart * (gst_percent / 100) else 0)),
            total_visits := c0.total_visits + 1 }
      else c0)
    rw [← himg]
    exact List.mem_map_of_mem _ hc

/-- C2: `process_order` performs no validation at all. An empty cart is
committed as a zero-total order (an order row appears and the customer's
visit counter is incremented), and a line requesting more than the available
stock is committed too, driving the product's stock negative — there is no
typed failure and the mutations all happen. -/
theorem process_order_commits_invalid_carts :
    (let r := process_order stateA "pos1" "9876543210" [] "CASH" true 18 "INV1" 1
     r.1.orders.length = 1 ∧ r.2.2.1 = 0 ∧
      ∃ c ∈ r.1.customers, c.mobile = "9876543210" ∧ c.total_visits = 1) ∧
    (let r := process_order stateA "pos1" "9876543210" [(2, ⟨7, 30, 20⟩)] "CASH"
        true 18 "INV2" 1
     r.1.orders.length = 1 ∧
      (∃ p ∈ r.1.products, p.id = 2 ∧ p.stock = -2) ∧
      ∃ c ∈ r.1.customers, c.mobile = "9876543210" ∧ c.total_visits = 1) := by
  refine ⟨⟨by decide, ?_, by decide⟩, by decide, by decide, by decide⟩
  show (0 : ℚ) + (if true then 0 * (18 / 100) else 0) = 0
  norm_num

/-- C9 counterexample: restocking a product id that does not exist is reported
as a success (`True`), not a failure — the claim says it must fail. The store
is indeed left unchanged. -/
theorem restock_unknown_product_succeeds :
    (∀ p ∈ stateA.products, p.id ≠ 7) ∧ restock_product stateA 7 5 = (stateA, true) :=
  ⟨by decide, rfl⟩

/-- C9 (amended): a non-positive quantity is rejected with no state change;
a positive quantity adds exactly `qty` to the stock of the matching products
and changes nothing else; but a positive quantity on an unknown product id
leaves the store unchanged while still reporting success. -/
theorem restock_product_spec (s : DBState) (product_id : Nat) (qty : ℤ) :
    (qty ≤ 0 → restock_product s product_id qty = (s, false)) ∧
    (0 < qty →
      (restock_product s product_id qty).2 = true ∧
      (restock_product s product_id qty).1.products
        = s.products.map (fun p =>
            if p.id = product_id then { p with stock := p.stock + qty } else p) ∧
      (∀ p ∈ s.products, p.id = product_id →
        { p with stock := p.stock + qty } ∈ (restock_product s product_id qty).1.products) ∧
      (restock_product s product_id qty).1.customers = s.customers ∧
      (restock_product s product_id qty).1.orders = s.orders ∧
      (restock_product s product_id qty).1.order_items = s.order_items ∧
      (restock_product s product_id qty).1.users = s.users) ∧
    (0 < qty → (∀ p ∈ s.products, p.id ≠ product_id) →
      restock_product s product_id qty = (s, true)) := by
  refine ⟨fun h => ?_, fun h => ?_, fun h hnone => ?_⟩
  · simp [restock_product, h]
  · have hn : ¬ qty ≤ 0 := not_le.mpr h
    refine ⟨by simp [restock_product, hn], by simp [restock_product, hn], ?_,
      by simp [restock_product, hn], by simp [restock_product, hn],
      by simp [restock_product, hn], by simp [restock_product, hn]⟩
    intro p hp hid
    have hmem := List.mem_map_of_mem
      (fun p => if p.id == product_id then { p with stock := p.stock + qty } else p) hp
    simp only [restock_product, if_neg hn]
    simpa [hid] using hmem
  · have hn : ¬ qty ≤ 0 := not_le.mpr h
    have hmap : s.products.map (fun p =>
        if p.id == product_id then { p with stock := p.stock + qty } else p)
        = s.products := by
      apply map_eq_self_of_forall
      intro p hp
      simp [hnone p hp]
    simp only [restock_product, if_neg hn, hmap]

/-- C1 witness, the specification's §8 scenario: cart {P1: 2, P2: 1} under
18% tax on `stateA` returns total 153.4 (subtotal 130, tax 23.4). -/
theorem process_order_valid_witness :
    (process_order stateA "pos1" "9876543210"
        [(1, ⟨2, 50, 40⟩), (2, ⟨1, 30, 20⟩)] "CASH" true 18 "INV1" 1).2.2.1 = 153.4 ∧
    (process_order stateA "pos1" "9876543210"
        [(1, ⟨2, 50, 40⟩), (2, ⟨1, 30, 20⟩)] "CASH" true 18 "INV1" 1).2.2.2 = 23.4 := by
  have h := process_order_valid stateA "pos1" "9876543210"
    [(1, ⟨2, 50, 40⟩), (2, ⟨1, 30, 20⟩)] "CASH" true 18 "INV1" 1
    (by decide) (by decide) (by decide) (by decide)
  constructor
  · rw [h.1]
    norm_num [cartSubtotal]
  · rw [h.2.1]
    norm_num [cartSubtotal]

/-- C9 witness: restocking product 2 of `stateA` by 3 succeeds and raises its
stock from 5 to 8, while a zero quantity is rejected unchanged. -/
theorem restock_product_spec_witness :
    restock_product stateA 2 0 = (stateA, false) ∧
    (restock_product stateA 2 3).2 = true ∧
    ({ id := 2, name := "P2", selling_price := 30, cost_price := 20,
       stock := 5 + 3, sales_count := 0 } : Product)
      ∈ (restock_product stateA 2 3).1.products := by
  have h0 := (restock_product_spec stateA 2 0).1 (by decide)
  have h3 := (restock_product_spec stateA 2 3).2.1 (by decide)
  exact ⟨h0, h3.1, h3.2.2.1 ⟨2, "P2", 30, 20, 5, 0⟩ (by decide) rfl⟩

/-- C4: `cancel_order` never changes the products table: every product row —
in particular its `stock` and `sales_count` — is identical before and after
any call, whatever the arguments and outcome (the stock consumed at commit
time is intentionally not restored). -/
theorem cancel_order_preserves_products (s : DBState) (admin_id : Nat)
    (order_id reason pw_check : String) :
    (cancel_order s admin_id order_id reason pw_check).1.products = s.products := by
  unfold cancel_order
  split
  · rfl
  · split
    · rfl
    · split
      · rfl
      · split
        · rfl
        · rfl

/-- C3: cancelling an ACTIVE order with a credential that re-authenticates the
admin succeeds: the order's row gets status `cancelled` with the supplied
reason recorded; the customers table receives exactly the reversal update keyed
by the order row's own `customer_mobile` and `total_amount`; in particular the
owning customer's row loses the order's `total_amount` and one visit and gains
one cancelled order. -/
theorem cancel_order_active (s : DBState) (admin_id : Nat) (o : Order)
    (order_id reason pw_check : String)
    (hauth : verify_password s admin_id pw_check = true)
    (hmem : o ∈ s.orders) (hid : o.order_id = order_id) (hactive : o.status = "active")
    (hids : (s.orders.map Order.order_id).Nodup) :
    (cancel_order s admin_id order_id reason pw_check).2.1 = true ∧
    ({ o with status := "cancelled", cancellation_reason := some reason } : Order)
      ∈ (cancel_order s admin_id order_id reason pw_check).1.orders ∧
    (cancel_order s admin_id order_id reason pw_check).1.orders
      = cancelUpdate order_id reason s.orders ∧
    (cancel_order s admin_id order_id reason pw_check).1.customers
      = reverseCustomer o.customer_mobile o.total_amount s.customers ∧
    (∀ c ∈ s.customers, c.mobile = o.customer_mobile →
      { c with
          total_spent := c.total_spent - o.total_amount,
          total_visits := c.total_visits - 1,
          cancelled_orders := c.cancelled_orders + 1 }
        ∈ (cancel_order s admin_id order_id reason pw_check).1.customers) := by
  have heq := cancel_order_success_eq s admin_id o order_id reason pw_check
    hauth hmem hid hactive hids
  rw [heq]
  refine ⟨rfl, mem_cancelUpdate order_id reason o s.orders hmem hid, rfl, rfl, ?_⟩
  intro c hc hm
  have himg := List.mem_map_of_mem (fun c0 =>
    if c0.mobile == o.customer_mobile then
      { c0 with
          total_spent := c0.total_spent - o.total_amount,
          total_visits := c0.total_visits - 1,
          cancelled_orders := c0.cancelled_orders + 1 }
    else c0) hc
  show _ ∈ reverseCustomer o.customer_mobile o.total_amount s.customers
  unfold reverseCustomer
  simpa [hm] using himg

/-- C3 witness: cancelling the active order ORD1 of `stateB` with the admin's
credential marks it cancelled with the reason and reverses the owning
customer's counters (spend 100 → 0, visits 1 → 0, cancellations 0 → 1). -/
theorem cancel_order_active_witness :
    (cancel_order stateB 1 "ORD1" "damaged" "hash1").2.1 = true ∧
    ({ order_id := "ORD1", customer_mobile := "9876543210", operator_username := "pos1",
       total_amount := 100, gst_amount := 0, payment_mode := "CASH", timestamp := 5,
       status := "cancelled", cancellation_reason := some "damaged" } : Order)
      ∈ (cancel_order stateB 1 "ORD1" "damaged" "hash1").1.orders ∧
    ({ mobile := "9876543210", name := "Customer 1", total_spent := 100 - 100,
       total_visits := 1 - 1, cancelled_orders := 0 + 1 } : Customer)
      ∈ (cancel_order stateB 1 "ORD1" "damaged" "hash1").1.customers := by
  have h := cancel_order_active stateB 1
    ⟨"ORD1", "9876543210", "pos1", 100, 0, "CASH", 5, "active", none⟩
    "ORD1" "damaged" "hash1" (by decide) (by decide) rfl rfl (by decide)
  exact ⟨h.1, h.2.1, h.2.2.2.2 ⟨"9876543210", "Customer 1", 100, 1, 0⟩ (by decide) rfl⟩

/-- C8: with a valid admin credential, `cancel_order` on an order id that does
not exist, or on an order already cancelled, returns the descriptive failure
and the state exactly unchanged; consequently a second application to an order
just cancelled is rejected with no state change. It never crashes: it is a
total function. -/
theorem cancel_order_rejects (s : DBState) (admin_id : Nat)
    (order_id reason reason2 pw_check : String)
    (hauth : verify_password s admin_id pw_check = true) :
    (s.orders.find? (fun o2 => o2.order_id == order_id) = none →
      cancel_order s admin_id order_id reason pw_check
        = (s, false, "Order already cancelled or not found")) ∧
    (∀ o : Order, s.orders.find? (fun o2 => o2.order_id == order_id) = some o →
      o.status = "cancelled" →
      cancel_order s admin_id order_id reason pw_check
        = (s, false, "Order already cancelled or not found")) ∧
    (∀ o : Order, o ∈ s.orders → o.order_id = order_id → o.status = "active" →
      (s.orders.map Order.order_id).Nodup →
      cancel_order (cancel_order s admin_id order_id reason pw_check).1 admin_id
          order_id reason2 pw_check
        = ((cancel_order s admin_id order_id reason pw_check).1, false,
            "Order already cancelled or not found")) := by
  refine ⟨fun hnone => ?_, fun o hsome hcanc => ?_, fun o hmem hid hactive hids => ?_⟩
  · unfold cancel_order
    rw [hauth, hnone]
    simp
  · have hstatus : (o.status == "cancelled") = true := by simp [hcanc]
    unfold cancel_order
    rw [hauth, hsome]
    simp [hstatus]
  · have heq := cancel_order_success_eq s admin_id o order_id reason pw_check
      hauth hmem hid hactive hids
    rw [heq]
    have hmem2 := mem_cancelUpdate order_id reason o s.orders hmem hid
    have hids2 : ((cancelUpdate order_id reason s.orders).map Order.order_id).Nodup := by
      rw [cancelUpdate_ids]
      exact hids
    have hfind2 : (cancelUpdate order_id reason s.orders).find?
        (fun o2 => o2.order_id == order_id)
        = some { o with status := "cancelled", cancellation_reason := some reason } :=
      find?_order_eq_some order_id _ _ hids2 hmem2 hid
    have hauth2 : verify_password
        { s with
            orders := cancelUpdate order_id reason s.orders,
            customers := reverseCustomer o.customer_mobile o.total_amount s.customers }
        admin_id pw_check = true := hauth
    unfold cancel_order
    rw [hauth2]
    dsimp only
    rw [hfind2]
    simp

/-- C8 witness, on `stateB`: cancelling the unknown order ORD404 is rejected
unchanged; cancelling the already-cancelled ORD2 is rejected unchanged; and
after cancelling the active ORD1, cancelling it a second time is rejected with
no further state change. -/
theorem cancel_order_rejects_witness :
    cancel_order stateB 1 "ORD404" "r" "hash1"
      = (stateB, false, "Order already cancelled or not found") ∧
    cancel_order stateB 1 "ORD2" "r" "hash1"
      = (stateB, false, "Order already cancelled or not found") ∧
    cancel_order (cancel_order stateB 1 "ORD1" "r" "hash1").1 1 "ORD1" "r2" "hash1"
      = ((cancel_order stateB 1 "ORD1" "r" "hash1").1, false,
          "Order already cancelled or not found") := by
  refine ⟨(cancel_order_rejects stateB 1 "ORD404" "r" "r2" "hash1" (by decide)).1
      (by decide),
    (cancel_order_rejects stateB 1 "ORD2" "r" "r2" "hash1" (by decide)).2.1
      ⟨"ORD2", "9876543210", "pos1", 40, 0, "UPI", 6, "cancelled", some "changed mind"⟩
      (by decide) rfl,
    (cancel_order_rejects stateB 1 "ORD1" "r" "r2" "hash1" (by decide)).2.2
      ⟨"ORD1", "9876543210", "pos1", 100, 0, "CASH", 5, "active", none⟩
      (by decide) rfl rfl (by decide)⟩

/-- Pre-restricting the orders table to its ACTIVE rows changes nothing for a
row test at least as strong as `status='active'`. -/
theorem filter_through_active (p : Order → Bool)
    (himp : ∀ o, p o = true → o.status == "active") :
    ∀ l : List Order, (l.filter (fun o => o.status == "active")).filter p = l.filter p := by
  intro l
  induction l with
  | nil => rfl
  | cons a t ih =>
    cases ha : (a.status == "active") with
    | false =>
      have hpa : p a = false := by
        cases hp : p a with
        | false => rfl
        | true => exact absurd (himp a hp) (by simp [ha])
      simp [List.filter_cons, ha, hpa, ih]
    | true => simp [List.filter_cons, ha, ih]

/-- The in-range-and-active row test implies the active row test. -/
theorem activeInRange_implies_active (start_date end_date : Nat) (o : Order)
    (h : activeInRange start_date end_date o = true) : o.status == "active" := by
  simp only [activeInRange, Bool.and_eq_true] at h
  exact h.1.1

/-- C6: over a date range in which every order is cancelled,
`get_financials_extended` reports zero revenue, zero orders and zero gross
margin; and in general its revenue, order-count, average-order-value,
total-cost and gross-profit aggregates are computed as if the cancelled
orders were not in the table at all. -/
theorem financials_exclude_cancelled (s : DBState) (start_date end_date : Nat) :
    ((∀ o ∈ s.orders, start_date ≤ o.timestamp → o.timestamp ≤ end_date →
        o.status = "cancelled") →
      (get_financials_extended s start_date end_date).revenue = 0 ∧
      (get_financials_extended s start_date end_date).total_orders = 0 ∧
      (get_financials_extended s start_date end_date).gross_margin = 0) ∧
    ((get_financials_extended s start_date end_date).revenue
        = (get_financials_extended
            { s with orders := s.orders.filter (fun o => o.status == "active") }
            start_date end_date).revenue ∧
      (get_financials_extended s start_date end_date).total_orders
        = (get_financials_extended
            { s with orders := s.orders.filter (fun o => o.status == "active") }
            start_date end_date).total_orders ∧
      (get_financials_extended s start_date end_date).aov
        = (get_financials_extended
            { s with orders := s.orders.filter (fun o => o.status == "active") }
            start_date end_date).aov ∧
      (get_financials_extended s start_date end_date).total_cost
        = (get_financials_extended
            { s with orders := s.orders.filter (fun o => o.status == "active") }
            start_date end_date).total_cost ∧
      (get_financials_extended s start_date end_date).gross_profit
        = (get_financials_extended
            { s with orders := s.orders.filter (fun o => o.status == "active") }
            start_date end_date).gross_profit) := by
  have hrange : (s.orders.filter (fun o => o.status == "active")).filter
      (activeInRange start_date end_date) = s.orders.filter (activeInRange start_date end_date) :=
    filter_through_active _ (activeInRange_implies_active start_date end_date) s.orders
  have hcost : ∀ oi : OrderItem,
      (s.orders.filter (fun o => o.status == "active")).filter
        (fun o => o.order_id == oi.order_id && activeInRange start_date end_date o)
      = s.orders.filter (fun o => o.order_id == oi.order_id
          && activeInRange start_date end_date o) := by
    intro oi
    apply filter_through_active
    intro o ho
    simp only [Bool.and_eq_true] at ho
    exact activeInRange_implies_active start_date end_date o ho.2
  constructor
  · intro h
    have hnil : s.orders.filter (activeInRange start_date end_date) = [] := by
      rw [List.filter_eq_nil_iff]
      intro o ho hpo
      have hact := activeInRange_implies_active start_date end_date o hpo
      simp only [activeInRange, Bool.and_eq_true, decide_eq_true_eq] at hpo
      have := h o ho hpo.1.2 hpo.2
      rw [this] at hact
      simp at hact
    refine ⟨by simp [get_financials_extended, hnil], by simp [get_financials_extended, hnil], ?_⟩
    simp [get_financials_extended, hnil]
  · refine ⟨?_, ?_, ?_, ?_, ?_⟩
    · simp only [get_financials_extended, hrange]
    · simp only [get_financials_extended, hrange]
    · simp only [get_financials_extended, hrange]
    · simp only [get_financials_extended]
      congr 1
      apply List.map_congr_left
      intro oi _
      rw [hcost oi]
    · simp only [get_financials_extended, hrange]
      congr 1
      congr 1
      apply List.map_congr_left
      intro oi _
      rw [hcost oi]

/-- C6 witness: on `stateB` the range [6, 6] holds only the cancelled order
ORD2, and the summary over it reports zero revenue, zero orders and zero
margin. -/
theorem financials_exclude_cancelled_witness :
    (get_financials_extended stateB 6 6).revenue = 0 ∧
    (get_financials_extended stateB 6 6).total_orders = 0 ∧
    (get_financials_extended stateB 6 6).gross_margin = 0 :=
  (financials_exclude_cancelled stateB 6 6).1 (by decide)

/-- A sum over a mapped index range as a `Finset` sum. -/
theorem sum_map_range (f : ℕ → ℚ) :
    ∀ n : ℕ, ((List.range n).map f).sum = ∑ i in Finset.range n, f i := by
  intro n
  induction n with
  | zero => rfl
  | succ k ih =>
    rw [List.range_succ, List.map_append, List.sum_append, Finset.sum_range_succ, ih]
    simp

/-- A list sum as the sum of its positional reads. -/
theorem sum_eq_sum_getD : ∀ l : List ℚ, l.sum = ∑ i in Finset.range l.length, l.getD i 0 := by
  intro l
  induction l with
  | nil => simp
  | cons a t ih =>
    rw [List.sum_cons, List.length_cons, Finset.sum_range_succ']
    simp only [List.getD_cons_succ, List.getD_cons_zero]
    rw [← ih]
    ring

/-- Gauss sum of the day indices, in `ℚ`. -/
theorem sum_range_cast_q :
    ∀ n : ℕ, ∑ i in Finset.range n, (i : ℚ) = (n : ℚ) * ((n : ℚ) - 1) / 2 := by
  intro n
  induction n with
  | zero => simp
  | succ k ih =>
    rw [Finset.sum_range_succ, ih]
    push_cast
    ring

/-- Sum of squared day indices, in `ℚ`. -/
theorem sum_range_sq_cast_q :
    ∀ n : ℕ, ∑ i in Finset.range n, (i : ℚ) ^ 2
      = (n : ℚ) * ((n : ℚ) - 1) * (2 * (n : ℚ) - 1) / 6 := by
  intro n
  induction n with
  | zero => simp
  | succ k ih =>
    rw [Finset.sum_range_succ, ih]
    push_cast
    ring

/-- The least-squares denominator `n·Σx² − (Σx)²` is positive once there are
two distinct day indices. -/
theorem slope_denom_pos (n : ℕ) (hn : 2 ≤ n) :
    0 < (n : ℚ) * (∑ i in Finset.range n, (i : ℚ) ^ 2)
        - (∑ i in Finset.range n, (i : ℚ)) ^ 2 := by
  rw [sum_range_cast_q, sum_range_sq_cast_q]
  have h2 : (2 : ℚ) ≤ (n : ℚ) := by exact_mod_cast hn
  have h0 : 0 < (n : ℚ) := by linarith
  have h1 : 0 < (n : ℚ) - 1 := by linarith
  have hkey : (n : ℚ) * ((n : ℚ) * ((n : ℚ) - 1) * (2 * (n : ℚ) - 1) / 6)
      - ((n : ℚ) * ((n : ℚ) - 1) / 2) ^ 2
      = (n : ℚ) ^ 2 * ((n : ℚ) - 1) * ((n : ℚ) + 1) / 12 := by
    ring
  rw [hkey]
  exact div_pos (mul_pos (mul_pos (pow_pos h0 2) h1) (by linarith)) (by norm_num)

/-- Chebyshev's sum inequality for the least-squares numerator: a revenue
series that never decreases along the day index gives `n·Σxy − Σx·Σy ≥ 0`. -/
theorem slope_num_nonneg (sales : List ℚ)
    (hmono : ∀ i j : ℕ, i ≤ j → j < sales.length → sales.getD i 0 ≤ sales.getD j 0) :
    0 ≤ (sales.length : ℚ)
          * (∑ i in Finset.range sales.length, (i : ℚ) * sales.getD i 0)
        - (∑ i in Finset.range sales.length, (i : ℚ))
          * (∑ i in Finset.range sales.length, sales.getD i 0) := by
  have hmov : MonovaryOn (fun i : ℕ => (i : ℚ)) (fun i : ℕ => sales.getD i 0)
      (Finset.range sales.length) := by
    intro i hi j hj hg
    simp only [Finset.mem_coe, Finset.mem_range] at hi hj
    have hg2 : sales.getD i 0 < sales.getD j 0 := hg
    show (i : ℚ) ≤ (j : ℚ)
    by_contra hle
    push_neg at hle
    have hji : j ≤ i := by exact_mod_cast hle.le
    exact absurd hg2 (not_lt.mpr (hmono j i hji hi))
  have hc := hmov.sum_mul_sum_le_card_mul_sum
  rw [Finset.card_range] at hc
  linarith

/-- A degree-1 curve with non-negative slope, evaluated along at least two
indices, ends at or above where it starts. -/
theorem head_le_last_of_nonneg_slope (c d : ℚ) (hd : 0 ≤ d) (m : ℕ) :
    ∃ a b : ℚ,
      ((List.range (m + 1 + 1)).map (fun (i : ℕ) => c + d * (i : ℚ))).head? = some a ∧
      ((List.range (m + 1 + 1)).map (fun (i : ℕ) => c + d * (i : ℚ))).getLast? = some b ∧
      a ≤ b := by
  refine ⟨c + d * ((0 : ℕ) : ℚ), c + d * ((m + 1 : ℕ) : ℚ), ?_, ?_, ?_⟩
  · rw [List.head?_map, show (List.range (m + 1 + 1)).head? = some 0 from by
      rw [List.range_succ_eq_map]
      rfl]
    rfl
  · rw [List.getLast?_map, show (List.range (m + 1 + 1)).getLast? = some (m + 1) from by
      rw [List.range_succ]
      exact List.getLast?_concat _]
    rfl
  · have h1 : ((0 : ℕ) : ℚ) ≤ ((m + 1 : ℕ) : ℚ) := by exact_mod_cast Nat.zero_le _
    have := mul_le_mul_of_nonneg_left h1 hd
    linarith

/-- C7: on fewer than 2 data points `predict_sales` returns the explicit
insufficient-data result (`None`, never an exception — the model is a total
function); and on a monotonically increasing series of length ≥ 2 the Linear
fit's curve at the observed indices ends at or above its first point. -/
theorem predict_sales_claim (sales : List ℚ) :
    (sales.length < 2 → predict_sales sales = none) ∧
    (2 ≤ sales.length →
      (∀ i j : ℕ, i < j → j < sales.length → sales.getD i 0 < sales.getD j 0) →
      ∃ fitted future : List ℚ, ∃ a b : ℚ,
        predict_sales sales = some (fitted, future) ∧
        fitted.head? = some a ∧ fitted.getLast? = some b ∧ a ≤ b) := by
  constructor
  · intro h
    simp only [predict_sales, if_pos h]
  · intro h2 hmono
    have hmono' : ∀ i j : ℕ, i ≤ j → j < sales.length →
        sales.getD i 0 ≤ sales.getD j 0 := by
      intro i j hij hj
      rcases eq_or_lt_of_le hij with rfl | hlt
      · exact le_refl _
      · exact (hmono i j hlt hj).le
    have hlt2 : ¬ sales.length < 2 := not_lt.mpr h2
    have hslope : 0 ≤ ((sales.length : ℚ)
          * ((List.range sales.length).map (fun (i : ℕ) => (i : ℚ) * sales.getD i 0)).sum
        - ((List.range sales.length).map (fun (i : ℕ) => (i : ℚ))).sum * sales.sum)
        / ((sales.length : ℚ)
            * ((List.range sales.length).map (fun (i : ℕ) => (i : ℚ) ^ 2)).sum
          - ((List.range sales.length).map (fun (i : ℕ) => (i : ℚ))).sum ^ 2) := by
      rw [sum_map_range, sum_map_range, sum_map_range, sum_eq_sum_getD]
      exact div_nonneg (slope_num_nonneg sales hmono')
        (slope_denom_pos sales.length h2).le
    obtain ⟨m, hm⟩ : ∃ m, sales.length = m + 1 + 1 := ⟨sales.length - 2, by omega⟩
    simp only [predict_sales, if_neg hlt2]
    rw [hm] at hslope ⊢
    obtain ⟨a, b, ha, hb, hab⟩ := head_le_last_of_nonneg_slope _ _ hslope m
    exact ⟨_, _, a, b, rfl, ha, hb, hab⟩

/-- C7 witness: the strictly increasing series [10, 20, 30] is accepted and
its fitted Linear curve ends at or above its first point, while the length-1
series [10] yields the insufficient-data result. -/
theorem predict_sales_claim_witness :
    predict_sales [10] = none ∧
    (∃ fitted future : List ℚ, ∃ a b : ℚ,
      predict_sales [10, 20, 30] = some (fitted, future) ∧
      fitted.head? = some a ∧ fitted.getLast? = some b ∧ a ≤ b) :=
  ⟨(predict_sales_claim [10]).1 (by norm_num),
   (predict_sales_claim [10, 20, 30]).2 (by norm_num) (by
    intro i j hij hj
    simp only [List.length_cons, List.length_nil] at hj
    interval_cases j <;> interval_cases i <;> simp_all <;> norm_num)⟩

/-- The guarded append `if sorted_data[i] not in results: results.append(...)`
keeps the collection duplicate-free. -/
theorem push_nodup {α : Type} [DecidableEq α] (r : List α) (x : α) (h : r.Nodup) :
    (if x ∈ r then r else r ++ [x]).Nodup := by
  by_cases hx : x ∈ r
  · simpa [hx] using h
  · simp [List.nodup_append, h, hx]

/-- Whatever the guarded append returns came from the collection or is the
appended record. -/
theorem mem_push {α : Type} [DecidableEq α] (r : List α) (x y : α)
    (h : y ∈ (if x ∈ r then r else r ++ [x])) : y ∈ r ∨ y = x := by
  by_cases hx : x ∈ r
  · rw [if_pos hx] at h
    exact Or.inl h
  · rw [if_neg hx] at h
    rcases List.mem_append.mp h with h1 | h1
    · exact Or.inl h1
    · exact Or.inr (by simpa using h1)

/-- The left expansion loop preserves duplicate-freedom. -/
theorem expandLeft_nodup {α : Type} [DecidableEq α] (sorted_data : List α)
    (key : α → String) (value : String) :
    ∀ (fuel : Nat) (i : ℤ) (results : List α), results.Nodup →
    (expandLeft sorted_data key value fuel i results).Nodup := by
  intro fuel
  induction fuel with
  | zero => intro i r h; exact h
  | succ k ih =>
    intro i r h
    simp only [expandLeft]
    split
    · split
      · exact h
      · split
        · exact ih _ _ (push_nodup r _ h)
        · exact h
    · exact h

/-- The right expansion loop preserves duplicate-freedom. -/
theorem expandRight_nodup {α : Type} [DecidableEq α] (sorted_data : List α)
    (key : α → String) (value : String) :
    ∀ (fuel : Nat) (i : ℤ) (results : List α), results.Nodup →
    (expandRight sorted_data key value fuel i results).Nodup := by
  intro fuel
  induction fuel with
  | zero => intro i r h; exact h
  | succ k ih =>
    intro i r h
    simp only [expandRight]
    split
    · exact h
    · split
      · exact ih _ _ (push_nodup r _ h)
      · exact h

/-- Everything the left expansion collects was already collected or is a
matching record of the sorted list. -/
theorem expandLeft_mem {α : Type} [DecidableEq α] (sorted_data : List α)
    (key : α → String) (value : String) :
    ∀ (fuel : Nat) (i : ℤ) (results : List α) (y : α),
    y ∈ expandLeft sorted_data key value fuel i results →
    y ∈ results ∨ (y ∈ sorted_data ∧ matchesQuery key value y = true) := by
  intro fuel
  induction fuel with
  | zero => intro i r y h; exact Or.inl h
  | succ k ih =>
    intro i r y h
    simp only [expandLeft] at h
    split at h
    · split at h
      · exact Or.inl h
      · rename_i x hget
        split at h
        · rename_i hmatch
          rcases ih _ _ _ h with h1 | h1
          · rcases mem_push r x y h1 with h2 | h2
            · exact Or.inl h2
            · exact Or.inr ⟨h2 ▸ List.get?_mem hget, h2 ▸ hmatch⟩
          · exact Or.inr h1
        · exact Or.inl h
    · exact Or.inl h

/-- Everything the right expansion collects was already collected or is a
matching record of the sorted list. -/
theorem expandRight_mem {α : Type} [DecidableEq α] (sorted_data : List α)
    (key : α → String) (value : String) :
    ∀ (fuel : Nat) (i : ℤ) (results : List α) (y : α),
    y ∈ expandRight sorted_data key value fuel i results →
    y ∈ results ∨ (y ∈ sorted_data ∧ matchesQuery key value y = true) := by
  intro fuel
  induction fuel with
  | zero => intro i r y h; exact Or.inl h
  | succ k ih =>
    intro i r y h
    simp only [expandRight] at h
    split at h
    · exact Or.inl h
    · rename_i x hget
      split at h
      · rename_i hmatch
        rcases ih _ _ _ h with h1 | h1
        · rcases mem_push r x y h1 with h2 | h2
          · exact Or.inl h2
          · exact Or.inr ⟨h2 ▸ List.get?_mem hget, h2 ▸ hmatch⟩
        · exact Or.inr h1
      · exact Or.inl h

/-- Every record `binary_search` returns is a prefix-matching record of the
input list. -/
theorem binary_search_subset {α : Type} [DecidableEq α] (data_list : List α)
    (key : α → String) (value : String) :
    ∀ y ∈ binary_search data_list key value,
      y ∈ data_list ∧ matchesQuery key value y = true := by
  intro y hy
  simp only [binary_search] at hy
  split at hy
  · cases hy
  · rcases expandRight_mem _ _ _ _ _ _ y hy with h1 | h1
    · rcases expandLeft_mem _ _ _ _ _ _ y h1 with h2 | h2
      · cases h2
      · exact ⟨(List.mem_insertionSort _).mp h2.1, h2.2⟩
    · exact ⟨(List.mem_insertionSort _).mp h1.1, h1.2⟩

/-- C10: `binary_search` never returns a record twice (its membership guard
deduplicates), while `linear_search` returns exactly the matching occurrences
in input order — so on any list containing a duplicated matching record the
two strategies return results of different lengths. -/
theorem binary_search_dedup_asymmetry {α : Type} [DecidableEq α]
    (data_list : List α) (key : α → String) (value : String) :
    (binary_search data_list key value).Nodup ∧
    linear_search data_list key value = data_list.filter (matchesQuery key value) ∧
    (∀ x : α, matchesQuery key value x = true → 2 ≤ data_list.count x →
      (linear_search data_list key value).length
        ≠ (binary_search data_list key value).length) := by
  have hnodup : (binary_search data_list key value).Nodup := by
    simp only [binary_search]
    split
    · exact List.nodup_nil
    · exact expandRight_nodup _ _ _ _ _ _
        (expandLeft_nodup _ _ _ _ _ _ List.nodup_nil)
  refine ⟨hnodup, rfl, ?_⟩
  intro x hx hcount hlen
  have hcm : 2 ≤ (data_list.filter (matchesQuery key value)).count x := by
    rw [List.count_filter hx]
    exact hcount
  have hnotnodup : ¬ (data_list.filter (matchesQuery key value)).Nodup := by
    intro hnd
    have := List.nodup_iff_count_le_one.mp hnd x
    omega
  have hdlt : (data_list.filter (matchesQuery key value)).dedup.length
      < (data_list.filter (matchesQuery key value)).length := by
    rcases Nat.lt_or_ge (data_list.filter (matchesQuery key value)).dedup.length
      (data_list.filter (matchesQuery key value)).length with h1 | h1
    · exact h1
    · exfalso
      have hs := List.dedup_sublist (data_list.filter (matchesQuery key value))
      have heq : (data_list.filter (matchesQuery key value)).dedup
          = data_list.filter (matchesQuery key value) :=
        hs.eq_of_length (le_antisymm hs.length_le h1)
      exact hnotnodup (heq ▸ (data_list.filter (matchesQuery key value)).nodup_dedup)
  have hble : (binary_search data_list key value).length
      ≤ (data_list.filter (matchesQuery key value)).dedup.length := by
    have h1 : (binary_search data_list key value).toFinset.card
        = (binary_search data_list key value).length :=
      List.toFinset_card_of_nodup hnodup
    have h2 : (binary_search data_list key value).toFinset
        ⊆ (data_list.filter (matchesQuery key value)).toFinset := by
      intro y hy
      rw [List.mem_toFinset] at hy ⊢
      obtain ⟨hmem, hmatch⟩ := binary_search_subset data_list key value y hy
      exact List.mem_filter.mpr ⟨hmem, hmatch⟩
    have h3 := Finset.card_le_card h2
    rw [h1, List.card_toFinset] at h3
    exact h3
  have hll : (linear_search data_list key value).length
      = (data_list.filter (matchesQuery key value)).length := rfl
  omega

/-- C10 witness: on the list `[{name:'co'}, {name:'co'}, {name:'cola'}]` with
query `"co"` the linear strategy returns three entries (the duplicate twice),
the binary strategy deduplicates, and the lengths differ. -/
theorem binary_search_dedup_asymmetry_witness :
    (binary_search [NameRec.mk "co", NameRec.mk "co", NameRec.mk "cola"]
      NameRec.name "co").Nodup ∧
    (linear_search [NameRec.mk "co", NameRec.mk "co", NameRec.mk "cola"]
        NameRec.name "co").length
      ≠ (binary_search [NameRec.mk "co", NameRec.mk "co", NameRec.mk "cola"]
        NameRec.name "co").length := by
  have h := binary_search_dedup_asymmetry
    [NameRec.mk "co", NameRec.mk "co", NameRec.mk "cola"] NameRec.name "co"
  exact ⟨h.1, h.2.2 (NameRec.mk "co") (by decide) (by decide)⟩

end SmartInventory
